import Mathlib

/-!
Verification of the merge engine in `plugins/module_utils/data_merge_utils.py`
(class `DataMergeUtils`).

The Python code operates on trees built from `None`, booleans, integers,
strings, lists and (insertion-ordered) dictionaries.  We embed such trees as
the inductive type `Value`.  Python dictionaries are modelled as association
lists in insertion order; real Python dictionaries never hold a key twice, so
theorems that need it carry a `Nodup` hypothesis on the key list.

Python exceptions raised by the module are modelled by `PyErr`:
`valueError` (the `ValueError` raised by the two property setters, the spec's
`InvalidConfiguration`), `typeError` (the defensive
`TypeError("Unexpected merge_type" / "Unexpected list_diff_type")`, the spec's
`UnsupportedMergeType`), `attributeError` (the `AttributeError` raised when
`get_new_merged_dict` iterates `expected.keys()` on a non-dict) and
`keyError` (the `KeyError` raised by `merged.pop(key)` on a missing key).

`deepcopy` is the identity on immutable functional values, so it is dropped.
-/

/-- Keys of a Python dictionary as used by the module: the data's own string
keys, plus the integer keys produced by `_convert_list_to_dict` (via
`enumerate`). -/
inductive Key where
  | kI : Nat → Key
  | kS : String → Key
deriving DecidableEq, Repr

/-- A Python value tree: `None`, a scalar (bool / int / str), a list, or a
dict given as an association list in insertion order. -/
inductive Value where
  | null : Value
  | bool : Bool → Value
  | int : Int → Value
  | str : String → Value
  | list : List Value → Value
  | dict : List (Key × Value) → Value
deriving Repr

/-- The Python exception classes that `data_merge_utils.py` can raise. -/
inductive PyErr where
  | valueError : PyErr
  | typeError : PyErr
  | attributeError : PyErr
  | keyError : PyErr
deriving DecidableEq, Repr

/-- Association lists standing for Python dictionaries. -/
abbrev Dict := List (Key × Value)

/-- Python `d.get(k)` / `d[k]`: first binding of `k`, if any. -/
def alookup : Dict → Key → Option Value
  | [], _ => none
  | (k1, v1) :: rest, k => if k1 = k then some v1 else alookup rest k

/-- Python `d[k] = v`: replace the binding in place, or append a new one. -/
def aset : Dict → Key → Value → Dict
  | [], k, v => [(k, v)]
  | (k1, v1) :: rest, k, v =>
      if k1 = k then (k, v) :: rest else (k1, v1) :: aset rest k v

/-- Removal part of Python `d.pop(k)` (the `KeyError` on a missing key is
raised at the call sites, which test membership via `alookup`). -/
def apop : Dict → Key → Dict
  | [], _ => []
  | (k1, v1) :: rest, k =>
      if k1 = k then rest else (k1, v1) :: apop rest k

/-- The key list of a dictionary, in insertion order. -/
def dkeys : Dict → List Key
  | [] => []
  | (k, _) :: rest => k :: dkeys rest

/-- Python `isinstance(v, (dict, list))`. -/
def Value.isComposite : Value → Bool
  | .list _ => true
  | .dict _ => true
  | _ => false

/-- `isinstance(o, (dict, list))` for the result of a `d.get(k)` call
(`None` when the key is missing, and `None` is not composite). -/
def isCompositeO : Option Value → Bool
  | some v => v.isComposite
  | none => false

/-- Python `v is None`. -/
def Value.isNull : Value → Bool
  | .null => true
  | _ => false

/-- What a Python `d.get(k)` call returns as a value: the binding, or the
`None` object when the key is missing.  Python cannot tell a stored `None`
from a missing key here. -/
def getO : Option Value → Value
  | some v => v
  | none => .null

/-- Python `isinstance(current, type(expected))` on our value shapes.  The
only cross-constructor case is `isinstance(True, int) == True`: `bool` is a
subclass of `int`. -/
def pytypeMatch : Value → Value → Bool
  | .null, .null => true
  | .bool _, .bool _ => true
  | .bool _, .int _ => true
  | .int _, .int _ => true
  | .str _, .str _ => true
  | .list _, .list _ => true
  | .dict _, .dict _ => true
  | _, _ => false

/-- `_convert_list_to_dict` generalised to an arbitrary first index:
`dict(list(enumerate(the_list)))` starting at `i`. -/
def enumFrom : Nat → List Value → Dict
  | _, [] => []
  | i, v :: vs => (Key.kI i, v) :: enumFrom (i + 1) vs

/-- `_convert_list_to_dict(the_list) = dict(list(enumerate(the_list)))`. -/
def enumDict (l : List Value) : Dict := enumFrom 0 l

/-- `_convert_dict_to_list(the_dict) = [val for key, val in the_dict.items()]`. -/
def dictValues (d : Dict) : List Value := d.map Prod.snd

mutual

/-- Size measures for the termination of the mutually recursive merge
functions (weight of a value / of the elements of a list / of the values of a
dict). -/
def vsize : Value → Nat
  | .null => 1
  | .bool _ => 1
  | .int _ => 1
  | .str _ => 1
  | .list xs => 1 + lsize xs
  | .dict xs => 1 + dsize xs

/-- Total weight of the elements of a list. -/
def lsize : List Value → Nat
  | [] => 0
  | v :: vs => vsize v + lsize vs

/-- Total weight of the values of a dict. -/
def dsize : Dict → Nat
  | [] => 0
  | (_, v) :: rest => vsize v + dsize rest

end

theorem vsize_pos : ∀ v : Value, 1 ≤ vsize v := by
  intro v; cases v <;> simp [vsize]

theorem dsize_enumFrom : ∀ (i : Nat) (l : List Value), dsize (enumFrom i l) = lsize l := by
  intro i l
  induction l generalizing i with
  | nil => simp [enumFrom, dsize, lsize]
  | cons v vs ih => simp [enumFrom, dsize, lsize, ih]

theorem alookup_sizeOf_lt : ∀ (d : Dict) (k : Key) (w : Value),
    alookup d k = some w → sizeOf w < sizeOf d := by
  intro d k w h
  induction d with
  | nil => simp [alookup] at h
  | cons p rest ih =>
      obtain ⟨k1, v1⟩ := p
      by_cases hk : k1 = k
      · simp [alookup, hk] at h
        subst h
        simp
        omega
      · simp [alookup, hk] at h
        have := ih h
        simp
        omega

mutual

/-- Python deep equality `a == b` on value trees: `True == 1` (bool is an int
subclass), lists compare pointwise in order, dictionaries compare by length
plus key-wise lookup (insertion order is irrelevant to `==`). -/
def pyEq : Value → Value → Bool
  | .null, .null => true
  | .bool a, .bool b => a == b
  | .bool a, .int n => (if a then (1 : Int) else 0) == n
  | .int n, .bool b => n == (if b then (1 : Int) else 0)
  | .int a, .int b => a == b
  | .str a, .str b => a == b
  | .list xs, .list ys => pyEqList xs ys
  | .dict xs, .dict ys => xs.length == ys.length && pyEqEntries xs ys
  | _, _ => false
termination_by a b => sizeOf a + sizeOf b
decreasing_by
  all_goals simp_wf
  all_goals (first | omega | (simp; omega))

/-- Pointwise Python `==` on two lists. -/
def pyEqList : List Value → List Value → Bool
  | [], [] => true
  | x :: xs, y :: ys => pyEq x y && pyEqList xs ys
  | _, _ => false
termination_by xs ys => sizeOf xs + sizeOf ys
decreasing_by
  all_goals simp_wf
  all_goals (first | omega | (simp; omega))

/-- Every entry of the first dict is bound in the second to a `==`-equal
value. -/
def pyEqEntries : Dict → Dict → Bool
  | [], _ => true
  | (k, v) :: rest, ys =>
      (match h : alookup ys k with
       | some w => pyEq v w
       | none => false)
      && pyEqEntries rest ys
termination_by xs ys => sizeOf xs + sizeOf ys
decreasing_by
  all_goals simp_wf
  all_goals
    (first
      | omega
      | (simp; omega)
      | (have hlt := alookup_sizeOf_lt ys k w h; simp; omega))

end

/-- Python `x in l` on a list: `any(x == elem for elem in l)`. -/
def pyMem (x : Value) (l : List Value) : Bool := l.any (fun y => pyEq x y)

mutual

/-- `DataMergeUtils.get_new_merged_data(current, expected)` with configuration
`mt = self.merge_type`, `ldt = self._list_diff_type` (both stored as strings,
exactly as in the class).  The `_check_identic` decorator returns a copy of
`expected` when `merge_type == 'identic'`; otherwise the two operands are
type-checked with `isinstance(current, type(expected))`, a mismatch is
resolved by `merge_type`, lists go to `get_new_merged_list`, and everything
else goes to `get_new_merged_dict` — which raises `AttributeError` when its
`expected` argument is not a dict (`expected.keys()` on a non-dict). -/
def mergeData : String → String → Value → Value → Except PyErr Value
  | mt, ldt, current, expected =>
    if mt = "identic" then .ok expected
    else if pytypeMatch current expected = false then
      if mt = "present" then .ok expected
      else if mt = "absent" then .ok current
      else .error .typeError
    else
      match current, expected with
      | .list c, .list e =>
          match mergeList mt ldt c e with
          | .ok r => .ok (.list r)
          | .error er => .error er
      | .dict c, .dict e =>
          match mergeDict mt ldt c e with
          | .ok r => .ok (.dict r)
          | .error er => .error er
      | _, _ => .error .attributeError
termination_by mt ldt current expected => 5 * vsize expected
decreasing_by
  all_goals simp_wf
  all_goals simp [vsize]
  all_goals omega

/-- `DataMergeUtils.get_new_merged_dict(current, expected)`: the
`_check_identic` decorator, then `merged = deepcopy(current)` followed by the
key loop, modelled by `mergeDictGo`. -/
def mergeDict : String → String → Dict → Dict → Except PyErr Dict
  | mt, ldt, current, expected =>
    if mt = "identic" then .ok expected
    else mergeDictGo mt ldt current current expected
termination_by mt ldt current expected => 5 * dsize expected + 3
decreasing_by
  all_goals simp_wf

/-- The `for key in expected.keys():` loop of `get_new_merged_dict`, iterating
over the remaining entries of `expected` (for a duplicate-free dict this is
the same as iterating its keys and looking each one up).  `current` is the
untouched original operand (the loop reads `current.get(key)`), `merged` the
dict being built.  In the recursive branch `merged[key]` raises `KeyError`
when the key is missing; in the `absent` branch `merged.get(key) ==
expected[key]` compares the fetched object (`None` when missing) and
`merged.pop(key)` raises `KeyError` on a missing key. -/
def mergeDictGo : String → String → Dict → Dict → Dict → Except PyErr Dict
  | _, _, _, merged, [] => .ok merged
  | mt, ldt, current, merged, (k, ev) :: rest =>
    if ev.isComposite && isCompositeO (alookup current k) then
      match alookup merged k with
      | some mv =>
          match mergeData mt ldt mv ev with
          | .ok r => mergeDictGo mt ldt current (aset merged k r) rest
          | .error er => .error er
      | none => .error .keyError
    else
      if mt = "present" then
        if ev.isNull then mergeDictGo mt ldt current merged rest
        else mergeDictGo mt ldt current (aset merged k ev) rest
      else if mt = "absent" then
        if pyEq (getO (alookup merged k)) ev then
          match alookup merged k with
          | some _ => mergeDictGo mt ldt current (apop merged k) rest
          | none => .error .keyError
        else mergeDictGo mt ldt current merged rest
      else .error .typeError
termination_by mt ldt current merged entries => 5 * dsize entries + 2
decreasing_by
  all_goals simp_wf
  all_goals simp [dsize]
  all_goals have := vsize_pos ev
  all_goals omega

/-- `DataMergeUtils.get_new_merged_list(current, expected)`: the
`_check_identic` decorator, then dispatch on `list_diff_type`:
`_get_new_merged_list_with_value_diff` builds the two comprehensions over
Python `in`-membership, `_get_new_merged_list_with_index_diff` converts both
lists to positional dicts, delegates to `get_new_merged_dict` and takes the
values of the result. -/
def mergeList : String → String → List Value → List Value → Except PyErr (List Value)
  | mt, ldt, current, expected =>
    if mt = "identic" then .ok expected
    else if ldt = "value" then
      if mt = "present" then
        .ok (current ++ expected.filter (fun elem => !pyMem elem current))
      else if mt = "absent" then
        .ok (current.filter (fun elem => !pyMem elem expected))
      else .error .typeError
    else if ldt = "index" then
      match mergeDict mt ldt (enumDict current) (enumDict expected) with
      | .ok md => .ok (dictValues md)
      | .error er => .error er
    else .error .typeError
termination_by mt ldt current expected => 5 * lsize expected + 4
decreasing_by
  all_goals simp_wf
  all_goals simp [enumDict, dsize_enumFrom]

end

/-- The `merge_type` property setter: `value not in ['identic', 'present',
'absent']` raises `ValueError`. -/
def mergeTypeSet (value : String) : Except PyErr String :=
  if value = "identic" ∨ value = "present" ∨ value = "absent" then .ok value
  else .error .valueError

/-- The `list_diff_type` property setter: `value not in ['value', 'index']`
raises `ValueError`. -/
def listDiffTypeSet (value : String) : Except PyErr String :=
  if value = "value" ∨ value = "index" then .ok value
  else .error .valueError

/-- The two configuration fields of a constructed `DataMergeUtils` instance
(`self._merge_type`, `self._list_diff_type`), stored as plain strings. -/
structure DataMergeUtils where
  merge_type : String
  list_diff_type : String
deriving DecidableEq, Repr

/-- `DataMergeUtils.__init__(merge_type, list_diff_type='value')`:
`self.merge_type = merge_type` goes through the validating property setter,
but `self._list_diff_type = list_diff_type` writes the private field
directly, bypassing `listDiffTypeSet`. -/
def DataMergeUtils.init (merge_type list_diff_type : String) :
    Except PyErr DataMergeUtils :=
  match mergeTypeSet merge_type with
  | .ok mt => .ok ⟨mt, list_diff_type⟩
  | .error er => .error er

/-- The four value shapes distinguished by the dispatcher's type-mismatch
policy: mapping, sequence, scalar and null. -/
inductive VKind where
  | nullK : VKind
  | scalarK : VKind
  | seqK : VKind
  | mapK : VKind
deriving DecidableEq, Repr

/-- The shape kind of a value. -/
def Value.kind : Value → VKind
  | .null => .nullK
  | .bool _ => .scalarK
  | .int _ => .scalarK
  | .str _ => .scalarK
  | .list _ => .seqK
  | .dict _ => .mapK

/-- C8: a merge with `merge_type` `identic` returns (a copy of) `expected`
for any `current` whatsoever, without inspecting `current` (the result is the
same for any two values of `current`); consequently `merge(x, x, identic) =
x` for every `x`. -/
theorem c8_identic_short_circuit :
    ∀ (ldt : String) (current current' expected : Value),
      mergeData "identic" ldt current expected = .ok expected ∧
      mergeData "identic" ldt current expected =
        mergeData "identic" ldt current' expected ∧
      mergeData "identic" ldt expected expected = .ok expected := by
  intro ldt c c' e
  refine ⟨?_, ?_, ?_⟩ <;> simp [mergeData.eq_def]

/-- C7: whenever the two operands have different shape kinds (mapping vs.
sequence vs. scalar vs. null), the dispatcher returns a deep copy of
`expected` under `present` and a deep copy of `current` under `absent`; the
mismatch is never an error. -/
theorem c7_type_mismatch_policy (ldt : String) (current expected : Value)
    (h : current.kind ≠ expected.kind) :
    mergeData "present" ldt current expected = .ok expected ∧
    mergeData "absent" ldt current expected = .ok current := by
  have hm : pytypeMatch current expected = false := by
    cases current <;> cases expected <;> simp_all [pytypeMatch, Value.kind]
  constructor <;> simp [mergeData.eq_def, hm]

/-- Witness for C7 at `current = 1`, `expected = []`. -/
theorem c7_type_mismatch_policy_witness :
    (Value.int 1).kind ≠ (Value.list []).kind ∧
    (mergeData "present" "value" (Value.int 1) (Value.list []) = .ok (Value.list []) ∧
     mergeData "absent" "value" (Value.int 1) (Value.list []) = .ok (Value.int 1)) :=
  ⟨by decide, c7_type_mismatch_policy "value" (Value.int 1) (Value.list []) (by decide)⟩

/-- C10: two scalars of the same kind (two strings, two integers, or two
booleans) under `present` or `absent` pass the `isinstance` check, are routed
to `get_new_merged_dict`, and the call fails (with `AttributeError` from
`expected.keys()`) instead of producing a terminal scalar decision. -/
theorem c10_same_kind_scalars_always_fail (mt ldt : String) (a b : Value)
    (hmt : mt = "present" ∨ mt = "absent")
    (hab : (∃ s1 s2, a = .str s1 ∧ b = .str s2) ∨
           (∃ n1 n2, a = .int n1 ∧ b = .int n2) ∨
           (∃ b1 b2, a = .bool b1 ∧ b = .bool b2)) :
    mergeData mt ldt a b = .error .attributeError := by
  obtain hmt | hmt := hmt <;> subst hmt <;>
    rcases hab with ⟨s1, s2, rfl, rfl⟩ | ⟨n1, n2, rfl, rfl⟩ | ⟨b1, b2, rfl, rfl⟩ <;>
    simp [mergeData, pytypeMatch]

/-- Witness for C10 at two integers under `present`. -/
theorem c10_same_kind_scalars_always_fail_witness :
    (("present" : String) = "present" ∨ ("present" : String) = "absent") ∧
    ((∃ s1 s2, Value.int 1 = .str s1 ∧ Value.int 2 = .str s2) ∨
     (∃ n1 n2, Value.int 1 = .int n1 ∧ Value.int 2 = .int n2) ∨
     (∃ b1 b2, Value.int 1 = .bool b1 ∧ Value.int 2 = .bool b2)) ∧
    mergeData "present" "value" (Value.int 1) (Value.int 2) = .error .attributeError :=
  ⟨Or.inl rfl, Or.inr (Or.inl ⟨1, 2, rfl, rfl⟩),
    c10_same_kind_scalars_always_fail "present" "value" (Value.int 1) (Value.int 2)
      (Or.inl rfl) (Or.inr (Or.inl ⟨1, 2, rfl, rfl⟩))⟩

/-- C4: by-value sequence merge.  Under `present` the result is `current`
followed by the elements of `expected`, in order, that are not Python-equal
to any element of the original `current` (so two equal qualifying elements of
`expected` are both appended, as the concrete instance shows); under `absent`
it is the elements of `current`, in order, that are not Python-equal to any
element of `expected`.  Elements are only compared, never merged. -/
theorem c4_by_value_list_merge :
    ∀ (current expected : List Value),
      mergeList "present" "value" current expected =
        .ok (current ++ expected.filter (fun elem => !pyMem elem current)) ∧
      mergeList "absent" "value" current expected =
        .ok (current.filter (fun elem => !pyMem elem expected)) ∧
      mergeList "present" "value" [Value.int 1] [Value.int 2, Value.int 2] =
        .ok [Value.int 1, Value.int 2, Value.int 2] := by
  intro c e
  refine ⟨by simp [mergeList], by simp [mergeList], ?_⟩
  simp [mergeList, pyMem, pyEq]

/-- C2 (code bug): with `merge_type = 'absent'`, when `expected` binds a key
to `None` and that key is missing from `merged`, `merged.get(key)` returns
`None`, the equality test succeeds, and `merged.pop(key)` raises `KeyError`
instead of leaving the mapping unchanged.  Evaluated both at the mapping
merger and at the dispatcher entry point. -/
theorem c2_absent_null_missing_key_keyerror :
    mergeDict "absent" "value" [] [(Key.kS "a", Value.null)] = .error .keyError ∧
    mergeData "absent" "value" (Value.dict [(Key.kS "b", Value.int 1)])
      (Value.dict [(Key.kS "a", Value.null)]) = .error .keyError := by
  constructor <;>
    simp [mergeData, mergeDict, mergeDictGo, pytypeMatch, alookup, getO, pyEq,
      Value.isComposite, isCompositeO, Value.isNull]

/-- C5 (code bug): `__init__('present', 'bogus')` succeeds — the constructor
writes `self._list_diff_type` directly instead of going through the
validating property setter (which rejects `'bogus'` with `ValueError`, as the
second conjunct shows, just as the `merge_type` setter rejects bad values) —
and the invalid `list_diff_type` only surfaces later, in the middle of a
sequence merge, as `TypeError("Unexpected list_diff_type")`. -/
theorem c5_init_skips_list_diff_type_validation :
    DataMergeUtils.init "present" "bogus" =
      .ok { merge_type := "present", list_diff_type := "bogus" } ∧
    listDiffTypeSet "bogus" = .error .valueError ∧
    mergeTypeSet "bogus" = .error .valueError ∧
    mergeData "present" "bogus" (Value.list [Value.int 1]) (Value.list [Value.int 2]) =
      .error .typeError := by
  refine ⟨?_, ?_, ?_, ?_⟩ <;>
    simp [DataMergeUtils.init, mergeTypeSet, listDiffTypeSet, mergeData, mergeList,
      pytypeMatch]

/-- C6 (counterexample): a merge call on operands accepted by a validated
configuration can fail with `AttributeError` (same-type scalar operands) and
with `KeyError` (absent-mode `None` at a missing key) — two failure modes
distinct from the claimed closed set of `InvalidConfiguration` (`ValueError`)
and `UnsupportedMergeType` (`TypeError`). -/
theorem c6_error_taxonomy_counterexample :
    mergeData "present" "value" (Value.int 5) (Value.int 7) = .error .attributeError ∧
    mergeData "absent" "index" (Value.list []) (Value.list [Value.null]) =
      .error .keyError ∧
    PyErr.attributeError ≠ PyErr.valueError ∧ PyErr.attributeError ≠ PyErr.typeError ∧
    PyErr.keyError ≠ PyErr.valueError ∧ PyErr.keyError ≠ PyErr.typeError := by
  refine ⟨?_, ?_, by decide, by decide, by decide, by decide⟩ <;>
    simp [mergeData, mergeDict, mergeDictGo, mergeList, pytypeMatch, alookup, getO, pyEq,
      Value.isComposite, isCompositeO, Value.isNull, enumDict, enumFrom, dictValues]

theorem alookup_aset_self (d : Dict) (k : Key) (v : Value) :
    alookup (aset d k v) k = some v := by
  induction d with
  | nil => simp [aset, alookup]
  | cons p rest ih =>
      obtain ⟨k1, v1⟩ := p
      by_cases hk : k1 = k <;> simp [aset, alookup, hk, ih]

theorem alookup_aset_ne (d : Dict) (k k' : Key) (v : Value) (h : k' ≠ k) :
    alookup (aset d k v) k' = alookup d k' := by
  have h' : ¬(k = k') := fun hh => h hh.symm
  induction d with
  | nil => simp [aset, alookup, h']
  | cons p rest ih =>
      obtain ⟨k1, v1⟩ := p
      by_cases hk : k1 = k
      · subst hk
        simp [aset, alookup, h']
      · simp only [aset, if_neg hk]
        by_cases hk' : k1 = k' <;> simp [alookup, hk', ih]

theorem alookup_apop_ne (d : Dict) (k k' : Key) (h : k' ≠ k) :
    alookup (apop d k) k' = alookup d k' := by
  induction d with
  | nil => simp [apop]
  | cons p rest ih =>
      obtain ⟨k1, v1⟩ := p
      by_cases hk : k1 = k
      · have h' : ¬(k1 = k') := fun hh => h (hh ▸ hk)
        simp [apop, if_pos hk, alookup, h']
      · simp only [apop, if_neg hk]
        by_cases hk' : k1 = k' <;> simp [alookup, hk', ih]

theorem mem_dkeys_iff_isSome (d : Dict) (k : Key) :
    k ∈ dkeys d ↔ (alookup d k).isSome := by
  induction d with
  | nil => simp [dkeys, alookup]
  | cons p rest ih =>
      obtain ⟨k1, v1⟩ := p
      by_cases hk : k1 = k
      · subst hk
        simp [dkeys, alookup]
      · have hk2 : ¬(k = k1) := fun hh => hk hh.symm
        simp [dkeys, alookup, hk, hk2, ih]

theorem isSome_alookup_aset (d : Dict) (k k' : Key) (v : Value)
    (h : (alookup d k').isSome) : (alookup (aset d k v) k').isSome := by
  by_cases hk : k' = k
  · subst hk
    simp [alookup_aset_self]
  · rwa [alookup_aset_ne d k k' v hk]

theorem dkeys_aset_mem (d : Dict) (k : Key) (v : Value) (h : k ∈ dkeys d) :
    dkeys (aset d k v) = dkeys d := by
  induction d with
  | nil => simp [dkeys] at h
  | cons p rest ih =>
      obtain ⟨k1, v1⟩ := p
      by_cases hk : k1 = k
      · subst hk
        simp [aset, dkeys]
      · simp only [dkeys, List.mem_cons] at h
        rcases h with h | h
        · exact absurd h.symm hk
        · simp [aset, dkeys, hk, ih h]

theorem dkeys_aset_not_mem (d : Dict) (k : Key) (v : Value) (h : k ∉ dkeys d) :
    dkeys (aset d k v) = dkeys d ++ [k] := by
  induction d with
  | nil => simp [aset, dkeys]
  | cons p rest ih =>
      obtain ⟨k1, v1⟩ := p
      simp only [dkeys, List.mem_cons] at h
      push_neg at h
      have hk : ¬(k1 = k) := fun hh => h.1 hh.symm
      simp [aset, dkeys, hk, ih h.2]

theorem dkeys_apop_sublist (d : Dict) (k : Key) :
    List.Sublist (dkeys (apop d k)) (dkeys d) := by
  induction d with
  | nil => simp [apop]
  | cons p rest ih =>
      obtain ⟨k1, v1⟩ := p
      by_cases hk : k1 = k
      · simp only [apop, if_pos hk, dkeys]
        exact List.sublist_cons_self k1 (dkeys rest)
      · simp only [apop, if_neg hk, dkeys]
        exact List.Sublist.cons₂ k1 ih

theorem isCompositeO_some (o : Option Value) (h : isCompositeO o = true) :
    ∃ v, o = some v ∧ v.isComposite = true := by
  cases o with
  | none => simp [isCompositeO] at h
  | some v => exact ⟨v, rfl, h⟩

/-- Step lemmas for one iteration of the `get_new_merged_dict` key loop. -/
theorem go_nil (mt ldt : String) (cur merged : Dict) :
    mergeDictGo mt ldt cur merged [] = .ok merged := by
  simp [mergeDictGo]

theorem go_cons_rec (mt ldt : String) (cur merged rest : Dict) (k : Key) (ev mv r : Value)
    (hg : (ev.isComposite && isCompositeO (alookup cur k)) = true)
    (hm : alookup merged k = some mv)
    (hd : mergeData mt ldt mv ev = .ok r) :
    mergeDictGo mt ldt cur merged ((k, ev) :: rest) =
      mergeDictGo mt ldt cur (aset merged k r) rest := by
  simp only [mergeDictGo, hg, if_true, hm, hd]

theorem go_cons_rec_err (mt ldt : String) (cur merged rest : Dict) (k : Key)
    (ev mv : Value) (er : PyErr)
    (hg : (ev.isComposite && isCompositeO (alookup cur k)) = true)
    (hm : alookup merged k = some mv)
    (hd : mergeData mt ldt mv ev = .error er) :
    mergeDictGo mt ldt cur merged ((k, ev) :: rest) = .error er := by
  simp only [mergeDictGo, hg, if_true, hm, hd]

theorem go_cons_rec_missing (mt ldt : String) (cur merged rest : Dict) (k : Key)
    (ev : Value)
    (hg : (ev.isComposite && isCompositeO (alookup cur k)) = true)
    (hm : alookup merged k = none) :
    mergeDictGo mt ldt cur merged ((k, ev) :: rest) = .error .keyError := by
  simp only [mergeDictGo, hg, if_true, hm]

theorem go_cons_present_null (ldt : String) (cur merged rest : Dict) (k : Key) (ev : Value)
    (hg : (ev.isComposite && isCompositeO (alookup cur k)) = false)
    (hn : ev.isNull = true) :
    mergeDictGo "present" ldt cur merged ((k, ev) :: rest) =
      mergeDictGo "present" ldt cur merged rest := by
  simp only [mergeDictGo, hg, Bool.false_eq_true, if_false, reduceIte, hn, if_true]

theorem go_cons_present_set (ldt : String) (cur merged rest : Dict) (k : Key) (ev : Value)
    (hg : (ev.isComposite && isCompositeO (alookup cur k)) = false)
    (hn : ev.isNull = false) :
    mergeDictGo "present" ldt cur merged ((k, ev) :: rest) =
      mergeDictGo "present" ldt cur (aset merged k ev) rest := by
  simp only [mergeDictGo, hg, Bool.false_eq_true, if_false, reduceIte, hn, if_true]

theorem go_cons_absent_pop (ldt : String) (cur merged rest : Dict) (k : Key) (ev mv : Value)
    (hg : (ev.isComposite && isCompositeO (alookup cur k)) = false)
    (he : pyEq (getO (alookup merged k)) ev = true)
    (hm : alookup merged k = some mv) :
    mergeDictGo "absent" ldt cur merged ((k, ev) :: rest) =
      mergeDictGo "absent" ldt cur (apop merged k) rest := by
  have he' := he
  rw [hm] at he'
  simp only [mergeDictGo, hg, Bool.false_eq_true, if_false, reduceIte, String.reduceEq, hm, he', if_true]

theorem go_cons_absent_pop_missing (ldt : String) (cur merged rest : Dict) (k : Key)
    (ev : Value)
    (hg : (ev.isComposite && isCompositeO (alookup cur k)) = false)
    (he : pyEq (getO (alookup merged k)) ev = true)
    (hm : alookup merged k = none) :
    mergeDictGo "absent" ldt cur merged ((k, ev) :: rest) = .error .keyError := by
  have he' := he
  rw [hm] at he'
  simp only [mergeDictGo, hg, Bool.false_eq_true, if_false, reduceIte, String.reduceEq, hm, he', if_true]

theorem go_cons_absent_keep (ldt : String) (cur merged rest : Dict) (k : Key) (ev : Value)
    (hg : (ev.isComposite && isCompositeO (alookup cur k)) = false)
    (he : pyEq (getO (alookup merged k)) ev = false) :
    mergeDictGo "absent" ldt cur merged ((k, ev) :: rest) =
      mergeDictGo "absent" ldt cur merged rest := by
  simp only [mergeDictGo, hg, Bool.false_eq_true, if_false, reduceIte, String.reduceEq, he]

/-- The validated `merge_type` enumeration. -/
def mtValid (mt : String) : Prop :=
  mt = "identic" ∨ mt = "present" ∨ mt = "absent"

/-- The validated `list_diff_type` enumeration. -/
def ldtValid (ldt : String) : Prop := ldt = "value" ∨ ldt = "index"

/-- Error classification, by strong induction on the size of the `expected`
side: with a validated `merge_type` a merge never raises `ValueError`, and
with a fully validated configuration it never raises `TypeError` either (all
four defensive `raise TypeError` branches are unreachable). -/
theorem errClass_aux : ∀ n : Nat,
    (∀ mt ldt (c e : Value), vsize e ≤ n → mtValid mt →
      mergeData mt ldt c e ≠ .error .valueError ∧
      (ldtValid ldt → mergeData mt ldt c e ≠ .error .typeError)) ∧
    (∀ mt ldt (cur merged entries : Dict), dsize entries ≤ n →
      (mt = "present" ∨ mt = "absent") →
      mergeDictGo mt ldt cur merged entries ≠ .error .valueError ∧
      (ldtValid ldt → mergeDictGo mt ldt cur merged entries ≠ .error .typeError)) ∧
    (∀ mt ldt (c e : Dict), dsize e ≤ n → mtValid mt →
      mergeDict mt ldt c e ≠ .error .valueError ∧
      (ldtValid ldt → mergeDict mt ldt c e ≠ .error .typeError)) ∧
    (∀ mt ldt (c e : List Value), lsize e ≤ n → mtValid mt →
      mergeList mt ldt c e ≠ .error .valueError ∧
      (ldtValid ldt → mergeList mt ldt c e ≠ .error .typeError)) := by
  intro n
  induction n using Nat.strong_induction_on with
  | _ n IH =>
  have HData : ∀ mt ldt (c e : Value), vsize e ≤ n → mtValid mt →
      mergeData mt ldt c e ≠ .error .valueError ∧
      (ldtValid ldt → mergeData mt ldt c e ≠ .error .typeError) := by
    intro mt ldt c e hsz hmt
    have hn1 : 1 ≤ n := le_trans (vsize_pos e) hsz
    rw [mergeData.eq_def]
    by_cases h1 : mt = "identic"
    · simp [h1]
    · simp only [if_neg h1]
      by_cases h2 : pytypeMatch c e = false
      · simp only [if_pos h2]
        rcases hmt with hmt | hmt | hmt
        · exact absurd hmt h1
        · simp [hmt]
        · simp [hmt]
      · simp only [if_neg h2]
        cases c with
        | list cl =>
            cases e with
            | list el =>
                have hsz' : lsize el ≤ n - 1 := by
                  simp only [vsize] at hsz; omega
                have hlist := (IH (n - 1) (by omega)).2.2.2 mt ldt cl el hsz' hmt
                cases hml : mergeList mt ldt cl el with
                | ok r => simp [hml]
                | error er =>
                    rw [hml] at hlist
                    simp only [hml]
                    simp only [ne_eq, Except.error.injEq] at hlist ⊢
                    exact hlist
            | null => simp
            | bool b => simp
            | int i => simp
            | str s => simp
            | dict ed => simp
        | dict cd =>
            cases e with
            | dict ed =>
                have hsz' : dsize ed ≤ n - 1 := by
                  simp only [vsize] at hsz; omega
                have hdict := (IH (n - 1) (by omega)).2.2.1 mt ldt cd ed hsz' hmt
                cases hmd : mergeDict mt ldt cd ed with
                | ok r => simp [hmd]
                | error er =>
                    rw [hmd] at hdict
                    simp only [hmd]
                    simp only [ne_eq, Except.error.injEq] at hdict ⊢
                    exact hdict
            | null => simp
            | bool b => simp
            | int i => simp
            | str s => simp
            | list el => simp
        | null => cases e <;> simp
        | bool b => cases e <;> simp
        | int i => cases e <;> simp
        | str s => cases e <;> simp
  have HGo : ∀ mt ldt (cur merged entries : Dict), dsize entries ≤ n →
      (mt = "present" ∨ mt = "absent") →
      mergeDictGo mt ldt cur merged entries ≠ .error .valueError ∧
      (ldtValid ldt → mergeDictGo mt ldt cur merged entries ≠ .error .typeError) := by
    intro mt ldt cur merged entries hsz hmt
    match entries with
    | [] => simp [go_nil]
    | (k, ev) :: rest =>
        have hvp := vsize_pos ev
        simp only [dsize] at hsz
        have hrest : dsize rest ≤ n - 1 := by omega
        have hn1 : 1 ≤ n := by omega
        have hmt' : mtValid mt := by
          rcases hmt with h | h
          · exact Or.inr (Or.inl h)
          · exact Or.inr (Or.inr h)
        by_cases hg : (ev.isComposite && isCompositeO (alookup cur k)) = true
        · cases halk : alookup merged k with
          | none =>
              rw [go_cons_rec_missing mt ldt cur merged rest k ev hg halk]
              simp
          | some mv =>
              have hdata := HData mt ldt mv ev (by omega) hmt'
              cases hmd : mergeData mt ldt mv ev with
              | ok r =>
                  rw [go_cons_rec mt ldt cur merged rest k ev mv r hg halk hmd]
                  exact (IH (n - 1) (by omega)).2.1 mt ldt cur (aset merged k r) rest
                    hrest hmt
              | error er =>
                  rw [go_cons_rec_err mt ldt cur merged rest k ev mv er hg halk hmd]
                  rw [hmd] at hdata
                  simp only [ne_eq, Except.error.injEq] at hdata ⊢
                  exact hdata
        · have hg' : (ev.isComposite && isCompositeO (alookup cur k)) = false := by
            simpa using hg
          rcases hmt with rfl | rfl
          · by_cases hnull : ev.isNull = true
            · rw [go_cons_present_null ldt cur merged rest k ev hg' hnull]
              exact (IH (n - 1) (by omega)).2.1 "present" ldt cur merged rest hrest
                (Or.inl rfl)
            · have hnull' : ev.isNull = false := by simpa using hnull
              rw [go_cons_present_set ldt cur merged rest k ev hg' hnull']
              exact (IH (n - 1) (by omega)).2.1 "present" ldt cur (aset merged k ev) rest
                hrest (Or.inl rfl)
          · by_cases heq : pyEq (getO (alookup merged k)) ev = true
            · cases halk : alookup merged k with
              | none =>
                  rw [go_cons_absent_pop_missing ldt cur merged rest k ev hg' heq halk]
                  simp
              | some mv =>
                  rw [go_cons_absent_pop ldt cur merged rest k ev mv hg' heq halk]
                  exact (IH (n - 1) (by omega)).2.1 "absent" ldt cur (apop merged k) rest
                    hrest (Or.inr rfl)
            · have heq' : pyEq (getO (alookup merged k)) ev = false := by simpa using heq
              rw [go_cons_absent_keep ldt cur merged rest k ev hg' heq']
              exact (IH (n - 1) (by omega)).2.1 "absent" ldt cur merged rest hrest
                (Or.inr rfl)
  have HDict : ∀ mt ldt (c e : Dict), dsize e ≤ n → mtValid mt →
      mergeDict mt ldt c e ≠ .error .valueError ∧
      (ldtValid ldt → mergeDict mt ldt c e ≠ .error .typeError) := by
    intro mt ldt c e hsz hmt
    rw [mergeDict.eq_def]
    by_cases h1 : mt = "identic"
    · simp [h1]
    · simp only [if_neg h1]
      rcases hmt with hmt | hmt | hmt
      · exact absurd hmt h1
      · exact HGo mt ldt c c e hsz (Or.inl hmt)
      · exact HGo mt ldt c c e hsz (Or.inr hmt)
  have HList : ∀ mt ldt (c e : List Value), lsize e ≤ n → mtValid mt →
      mergeList mt ldt c e ≠ .error .valueError ∧
      (ldtValid ldt → mergeList mt ldt c e ≠ .error .typeError) := by
    intro mt ldt c e hsz hmt
    rw [mergeList.eq_def]
    by_cases h1 : mt = "identic"
    · simp [h1]
    · simp only [if_neg h1]
      by_cases hv : ldt = "value"
      · rcases hmt with hmt | hmt | hmt
        · exact absurd hmt h1
        · simp [hv, hmt]
        · simp [hv, hmt]
      · simp only [if_neg hv]
        by_cases hi : ldt = "index"
        · simp only [if_pos hi]
          have hsz' : dsize (enumDict e) ≤ n := by
            rw [enumDict, dsize_enumFrom]; exact hsz
          have hdict := HDict mt ldt (enumDict c) (enumDict e) hsz' hmt
          cases hmd : mergeDict mt ldt (enumDict c) (enumDict e) with
          | ok md => simp [hmd]
          | error er =>
              rw [hmd] at hdict
              simp only [hmd]
              simp only [ne_eq, Except.error.injEq] at hdict ⊢
              exact hdict
        · simp only [if_neg hi]
          constructor
          · simp
          · intro hldt
            rcases hldt with hldt | hldt
            · exact absurd hldt hv
            · exact absurd hldt hi
  exact ⟨HData, HGo, HDict, HList⟩

/-- C6 (amended): a merge call under a `merge_type` accepted at construction
time never fails with `InvalidConfiguration` (`ValueError`), and when
`list_diff_type` is also valid it never fails with `UnsupportedMergeType`
(`TypeError`) either — the remaining failure modes are exactly the
`AttributeError` and `KeyError` of the counterexample. -/
theorem c6_error_taxonomy_amended (mt ldt : String) (current expected : Value)
    (hmt : mtValid mt) :
    mergeData mt ldt current expected ≠ .error .valueError ∧
    (ldtValid ldt → mergeData mt ldt current expected ≠ .error .typeError) :=
  (errClass_aux (vsize expected)).1 mt ldt current expected le_rfl hmt

/-- Witness for the amended C6 at `present`/`value` on two integers. -/
theorem c6_error_taxonomy_amended_witness :
    mtValid "present" ∧
    (mergeData "present" "value" (Value.int 5) (Value.int 7) ≠ .error .valueError ∧
     (ldtValid "value" →
       mergeData "present" "value" (Value.int 5) (Value.int 7) ≠ .error .typeError)) :=
  ⟨Or.inr (Or.inl rfl),
    c6_error_taxonomy_amended "present" "value" (Value.int 5) (Value.int 7)
      (Or.inr (Or.inl rfl))⟩

/-- Present-mode totality: with a valid `list_diff_type`, a `present` merge of
a composite `expected` (and of every dict/list pair) always returns `ok` —
in particular the two `KeyError` sites are unreachable because under
`present` the key domain of `merged` only grows from that of `current`. -/
theorem presentTotal_aux : ∀ n : Nat,
    (∀ ldt (c e : Value), vsize e ≤ n → ldtValid ldt → e.isComposite = true →
      ∃ v, mergeData "present" ldt c e = .ok v) ∧
    (∀ ldt (cur merged entries : Dict), dsize entries ≤ n → ldtValid ldt →
      (∀ k, (alookup cur k).isSome → (alookup merged k).isSome) →
      ∃ d, mergeDictGo "present" ldt cur merged entries = .ok d) ∧
    (∀ ldt (c e : Dict), dsize e ≤ n → ldtValid ldt →
      ∃ d, mergeDict "present" ldt c e = .ok d) ∧
    (∀ ldt (c e : List Value), lsize e ≤ n → ldtValid ldt →
      ∃ l, mergeList "present" ldt c e = .ok l) := by
  intro n
  induction n using Nat.strong_induction_on with
  | _ n IH =>
  have hni : ("present" : String) ≠ "identic" := by decide
  have HData : ∀ ldt (c e : Value), vsize e ≤ n → ldtValid ldt → e.isComposite = true →
      ∃ v, mergeData "present" ldt c e = .ok v := by
    intro ldt c e hsz hldt hcomp
    have hn1 : 1 ≤ n := le_trans (vsize_pos e) hsz
    rw [mergeData.eq_def]
    simp only [if_neg hni]
    by_cases h2 : pytypeMatch c e = false
    · simp [h2]
    · simp only [if_neg h2]
      cases e with
      | list el =>
          cases c with
          | list cl =>
              have hsz' : lsize el ≤ n - 1 := by simp only [vsize] at hsz; omega
              obtain ⟨l, hl⟩ := (IH (n - 1) (by omega)).2.2.2 ldt cl el hsz' hldt
              dsimp only
              rw [hl]
              exact ⟨.list l, rfl⟩
          | null => exact absurd rfl h2
          | bool b => exact absurd rfl h2
          | int i => exact absurd rfl h2
          | str ss => exact absurd rfl h2
          | dict cd => exact absurd rfl h2
      | dict ed =>
          cases c with
          | dict cd =>
              have hsz' : dsize ed ≤ n - 1 := by simp only [vsize] at hsz; omega
              obtain ⟨d, hd⟩ := (IH (n - 1) (by omega)).2.2.1 ldt cd ed hsz' hldt
              dsimp only
              rw [hd]
              exact ⟨.dict d, rfl⟩
          | null => exact absurd rfl h2
          | bool b => exact absurd rfl h2
          | int i => exact absurd rfl h2
          | str ss => exact absurd rfl h2
          | list cl => exact absurd rfl h2
      | null => simp [Value.isComposite] at hcomp
      | bool b => simp [Value.isComposite] at hcomp
      | int i => simp [Value.isComposite] at hcomp
      | str ss => simp [Value.isComposite] at hcomp
  have HGo : ∀ ldt (cur merged entries : Dict), dsize entries ≤ n → ldtValid ldt →
      (∀ k, (alookup cur k).isSome → (alookup merged k).isSome) →
      ∃ d, mergeDictGo "present" ldt cur merged entries = .ok d := by
    intro ldt cur merged entries hsz hldt hdom
    match entries with
    | [] => exact ⟨merged, go_nil _ _ _ _⟩
    | (k, ev) :: rest =>
        have hvp := vsize_pos ev
        simp only [dsize] at hsz
        have hrest : dsize rest ≤ n - 1 := by omega
        by_cases hg : (ev.isComposite && isCompositeO (alookup cur k)) = true
        · have hevc : ev.isComposite = true := ((Bool.and_eq_true _ _).mp hg).1
          have hcurk : (alookup cur k).isSome := by
            obtain ⟨cv, hcv, _⟩ := isCompositeO_some _ ((Bool.and_eq_true _ _).mp hg).2
            simp [hcv]
          obtain ⟨mv, halk⟩ := Option.isSome_iff_exists.mp (hdom k hcurk)
          obtain ⟨r, hmd⟩ := HData ldt mv ev (by omega) hldt hevc
          rw [go_cons_rec "present" ldt cur merged rest k ev mv r hg halk hmd]
          exact (IH (n - 1) (by omega)).2.1 ldt cur (aset merged k r) rest hrest hldt
            (fun k' h => isSome_alookup_aset merged k k' r (hdom k' h))
        · have hg' : (ev.isComposite && isCompositeO (alookup cur k)) = false := by
            simpa using hg
          by_cases hnull : ev.isNull = true
          · rw [go_cons_present_null ldt cur merged rest k ev hg' hnull]
            exact (IH (n - 1) (by omega)).2.1 ldt cur merged rest hrest hldt hdom
          · have hnull' : ev.isNull = false := by simpa using hnull
            rw [go_cons_present_set ldt cur merged rest k ev hg' hnull']
            exact (IH (n - 1) (by omega)).2.1 ldt cur (aset merged k ev) rest hrest hldt
              (fun k' h => isSome_alookup_aset merged k k' ev (hdom k' h))
  have HDict : ∀ ldt (c e : Dict), dsize e ≤ n → ldtValid ldt →
      ∃ d, mergeDict "present" ldt c e = .ok d := by
    intro ldt c e hsz hldt
    rw [mergeDict.eq_def]
    simp only [if_neg hni]
    exact HGo ldt c c e hsz hldt (fun k h => h)
  have HList : ∀ ldt (c e : List Value), lsize e ≤ n → ldtValid ldt →
      ∃ l, mergeList "present" ldt c e = .ok l := by
    intro ldt c e hsz hldt
    rw [mergeList.eq_def]
    simp only [if_neg hni]
    rcases hldt with rfl | rfl
    · simp
    · have hsz' : dsize (enumDict e) ≤ n := by rw [enumDict, dsize_enumFrom]; exact hsz
      obtain ⟨d, hd⟩ := HDict "index" (enumDict c) (enumDict e) hsz' (Or.inr rfl)
      simp only [String.reduceEq, reduceIte]
      rw [hd]
      exact ⟨dictValues d, rfl⟩
  exact ⟨HData, HGo, HDict, HList⟩

/-- The spec's "same-composite-kind recursion case" test for a key: the
current side (a `get` result) and the expected side are both sequences or
both mappings. -/
def sameCompositeKind : Option Value → Value → Bool
  | some (.list _), .list _ => true
  | some (.dict _), .dict _ => true
  | _, _ => false

theorem pytypeMatch_false_of_mixed (mv ev : Value) (hmv : mv.isComposite = true)
    (hev : ev.isComposite = true) (hs : sameCompositeKind (some mv) ev = false) :
    pytypeMatch mv ev = false := by
  cases mv <;> cases ev <;> simp_all [Value.isComposite, sameCompositeKind, pytypeMatch]

theorem data_present_mismatch (ldt : String) (mv ev : Value)
    (hm : pytypeMatch mv ev = false) :
    mergeData "present" ldt mv ev = .ok ev := by
  rw [mergeData.eq_def]
  simp [hm]

theorem isNull_eq_null (v : Value) (h : v.isNull = true) : v = .null := by
  cases v with
  | null => rfl
  | bool b => simp [Value.isNull] at h
  | int i => simp [Value.isNull] at h
  | str s => simp [Value.isNull] at h
  | list l => simp [Value.isNull] at h
  | dict d => simp [Value.isNull] at h

theorem c1_go_lookup : ∀ (ldt : String) (entries cur merged m' : Dict),
    (dkeys entries).Nodup →
    (∀ k, k ∈ dkeys entries → alookup merged k = alookup cur k) →
    mergeDictGo "present" ldt cur merged entries = .ok m' →
    ((∀ k ev, (k, ev) ∈ entries → sameCompositeKind (alookup cur k) ev = false →
        (ev = .null → alookup m' k = alookup cur k) ∧
        (ev ≠ .null → alookup m' k = some ev)) ∧
     (∀ k, k ∉ dkeys entries → alookup m' k = alookup merged k)) := by
  intro ldt entries
  induction entries with
  | nil =>
      intro cur merged m' hnd hag hok
      rw [go_nil] at hok
      obtain rfl : merged = m' := by
        injection hok
      constructor
      · intro k ev hmem
        simp at hmem
      · intro k _
        rfl
  | cons p rest ih =>
      obtain ⟨k0, ev0⟩ := p
      intro cur merged m' hnd hag hok
      have hk0notin : k0 ∉ dkeys rest := by
        have := List.nodup_cons.mp (by simpa [dkeys] using hnd)
        exact this.1
      have hndrest : (dkeys rest).Nodup := by
        have := List.nodup_cons.mp (by simpa [dkeys] using hnd)
        exact this.2
      have hag0 : alookup merged k0 = alookup cur k0 := hag k0 (by simp [dkeys])
      by_cases hg : (ev0.isComposite && isCompositeO (alookup cur k0)) = true
      · have hevc : ev0.isComposite = true := ((Bool.and_eq_true _ _).mp hg).1
        have hcomp := ((Bool.and_eq_true _ _).mp hg).2
        obtain ⟨cv, hcv, hcvc⟩ := isCompositeO_some _ hcomp
        have halk : alookup merged k0 = some cv := by rw [hag0, hcv]
        cases hmd : mergeData "present" ldt cv ev0 with
        | error er =>
            rw [go_cons_rec_err "present" ldt cur merged rest k0 ev0 cv er hg halk hmd]
              at hok
            simp at hok
        | ok r =>
            rw [go_cons_rec "present" ldt cur merged rest k0 ev0 cv r hg halk hmd] at hok
            have hagrest : ∀ k, k ∈ dkeys rest →
                alookup (aset merged k0 r) k = alookup cur k := by
              intro k hk
              have hne : k ≠ k0 := fun hh => hk0notin (hh ▸ hk)
              rw [alookup_aset_ne merged k0 k r hne]
              exact hag k (by simp [dkeys, hk])
            obtain ⟨ihA, ihB⟩ := ih cur (aset merged k0 r) m' hndrest hagrest hok
            constructor
            · intro k ev hmem hs
              rcases List.mem_cons.mp hmem with heq | hmem'
              · obtain ⟨rfl, rfl⟩ := Prod.mk.injEq .. |>.mp heq
                have hs' : sameCompositeKind (some cv) ev = false := by
                  rw [hcv] at hs
                  exact hs
                have hpm : pytypeMatch cv ev = false :=
                  pytypeMatch_false_of_mixed cv ev hcvc hevc hs'
                have hok0 : mergeData "present" ldt cv ev = .ok ev :=
                  data_present_mismatch ldt cv ev hpm
                have hrev : r = ev := by
                  rw [hok0] at hmd
                  injection hmd with hh
                  exact hh.symm
                constructor
                · intro hnull
                  rw [hnull] at hevc
                  simp [Value.isComposite] at hevc
                · intro _
                  rw [ihB k hk0notin, alookup_aset_self, hrev]
              · exact ihA k ev hmem' hs
            · intro k hk
              have hk' : k ≠ k0 ∧ k ∉ dkeys rest := by
                simp only [dkeys, List.mem_cons] at hk
                push_neg at hk
                exact hk
              rw [ihB k hk'.2, alookup_aset_ne merged k0 k r hk'.1]
      · have hg' : (ev0.isComposite && isCompositeO (alookup cur k0)) = false := by
          simpa using hg
        by_cases hnull : ev0.isNull = true
        · have hev0 : ev0 = .null := isNull_eq_null ev0 hnull
          rw [go_cons_present_null ldt cur merged rest k0 ev0 hg' hnull] at hok
          have hagrest : ∀ k, k ∈ dkeys rest → alookup merged k = alookup cur k := by
            intro k hk
            exact hag k (by simp [dkeys, hk])
          obtain ⟨ihA, ihB⟩ := ih cur merged m' hndrest hagrest hok
          constructor
          · intro k ev hmem hs
            rcases List.mem_cons.mp hmem with heq | hmem'
            · obtain ⟨rfl, rfl⟩ := Prod.mk.injEq .. |>.mp heq
              constructor
              · intro _
                rw [ihB k hk0notin, hag0]
              · intro hne
                exact absurd hev0 hne
            · exact ihA k ev hmem' hs
          · intro k hk
            have hk' : k ≠ k0 ∧ k ∉ dkeys rest := by
              simp only [dkeys, List.mem_cons] at hk
              push_neg at hk
              exact hk
            exact ihB k hk'.2
        · have hnull' : ev0.isNull = false := by simpa using hnull
          rw [go_cons_present_set ldt cur merged rest k0 ev0 hg' hnull'] at hok
          have hagrest : ∀ k, k ∈ dkeys rest →
              alookup (aset merged k0 ev0) k = alookup cur k := by
            intro k hk
            have hne : k ≠ k0 := fun hh => hk0notin (hh ▸ hk)
            rw [alookup_aset_ne merged k0 k ev0 hne]
            exact hag k (by simp [dkeys, hk])
          obtain ⟨ihA, ihB⟩ := ih cur (aset merged k0 ev0) m' hndrest hagrest hok
          constructor
          · intro k ev hmem hs
            rcases List.mem_cons.mp hmem with heq | hmem'
            · obtain ⟨rfl, rfl⟩ := Prod.mk.injEq .. |>.mp heq
              constructor
              · intro hnl
                rw [hnl] at hnull'
                simp [Value.isNull] at hnull'
              · intro _
                rw [ihB k hk0notin, alookup_aset_self]
            · exact ihA k ev hmem' hs
          · intro k hk
            have hk' : k ≠ k0 ∧ k ∉ dkeys rest := by
              simp only [dkeys, List.mem_cons] at hk
              push_neg at hk
              exact hk
            rw [ihB k hk'.2, alookup_aset_ne merged k0 k ev0 hk'.1]

/-- C1: present-mode mapping merge.  The merge succeeds, and for every key
`k` of `expected` outside the same-composite-kind recursion case, a `Null`
expected value leaves the key exactly as in `current` (absent keys stay
absent), any other expected value overwrites or creates the key; keys not
mentioned in `expected` keep their `current` binding. -/
theorem c1_present_mapping_merge (ldt : String) (current expected : Dict)
    (hldt : ldtValid ldt) (hnd : (dkeys expected).Nodup) :
    ∃ merged, mergeDict "present" ldt current expected = .ok merged ∧
      (∀ k ev, (k, ev) ∈ expected →
        sameCompositeKind (alookup current k) ev = false →
        (ev = .null → alookup merged k = alookup current k) ∧
        (ev ≠ .null → alookup merged k = some ev)) ∧
      (∀ k, k ∉ dkeys expected → alookup merged k = alookup current k) := by
  obtain ⟨d, hd⟩ :=
    (presentTotal_aux (dsize expected)).2.2.1 ldt current expected le_rfl hldt
  have hd' : mergeDictGo "present" ldt current current expected = .ok d := by
    rw [mergeDict.eq_def] at hd
    simpa using hd
  obtain ⟨hA, hB⟩ := c1_go_lookup ldt expected current current d hnd (fun k _ => rfl) hd'
  exact ⟨d, hd, hA, hB⟩

/-- Witness for C1: `current = {'a': 1, 'c': 3}`,
`expected = {'a': 2, 'b': None}` under `list_diff_type = 'value'`. -/
theorem c1_present_mapping_merge_witness :
    ldtValid "value" ∧
    (dkeys [(Key.kS "a", Value.int 2), (Key.kS "b", Value.null)]).Nodup ∧
    (∃ merged, mergeDict "present" "value" [(Key.kS "a", Value.int 1), (Key.kS "c", Value.int 3)]
        [(Key.kS "a", Value.int 2), (Key.kS "b", Value.null)] = .ok merged ∧
      (∀ k ev, (k, ev) ∈ [(Key.kS "a", Value.int 2), (Key.kS "b", Value.null)] →
        sameCompositeKind (alookup [(Key.kS "a", Value.int 1), (Key.kS "c", Value.int 3)] k) ev
          = false →
        (ev = .null → alookup merged k =
          alookup [(Key.kS "a", Value.int 1), (Key.kS "c", Value.int 3)] k) ∧
        (ev ≠ .null → alookup merged k = some ev)) ∧
      (∀ k, k ∉ dkeys [(Key.kS "a", Value.int 2), (Key.kS "b", Value.null)] →
        alookup merged k =
          alookup [(Key.kS "a", Value.int 1), (Key.kS "c", Value.int 3)] k)) :=
  ⟨Or.inl rfl, by decide,
    c1_present_mapping_merge "value"
      [(Key.kS "a", Value.int 1), (Key.kS "c", Value.int 3)]
      [(Key.kS "a", Value.int 2), (Key.kS "b", Value.null)]
      (Or.inl rfl) (by decide)⟩

/-- Comparison of dictionary keys, used only to express "ascending key
order" for the positional (integer-keyed) mappings of the ByIndex strategy;
integer keys sort before string keys, each kind by its own order. -/
def keyLe : Key → Key → Bool
  | .kI a, .kI b => decide (a ≤ b)
  | .kI _, .kS _ => true
  | .kS _, .kI _ => false
  | .kS a, .kS b => decide (a ≤ b)

/-- Strict version of `keyLe`. -/
def keyLt : Key → Key → Bool
  | .kI a, .kI b => decide (a < b)
  | .kI _, .kS _ => true
  | .kS _, .kI _ => false
  | .kS a, .kS b => decide (a < b)

/-- Propositional form of `keyLt`. -/
def keyLtP (a b : Key) : Prop := keyLt a b = true

theorem keyLe_of_keyLt (a b : Key) (h : keyLt a b = true) : keyLe a b = true := by
  cases a with
  | kI na =>
      cases b with
      | kI nb =>
          simp [keyLt] at h
          simp [keyLe]
          omega
      | kS sb => simp [keyLe]
  | kS sa =>
      cases b with
      | kI nb => simp [keyLt] at h
      | kS sb =>
          simp [keyLt] at h
          simp [keyLe]
          exact le_of_lt h

/-- Insertion into a key-sorted association list. -/
def insertByKey (p : Key × Value) : Dict → Dict
  | [] => [p]
  | q :: rest => if keyLe p.1 q.1 then p :: q :: rest else q :: insertByKey p rest

/-- Insertion sort of a dictionary by ascending key. -/
def sortByKey : Dict → Dict
  | [] => []
  | p :: rest => insertByKey p (sortByKey rest)

theorem insertByKey_head (p : Key × Value) (rest : Dict)
    (h : ∀ q ∈ rest, keyLtP p.1 q.1) : insertByKey p rest = p :: rest := by
  cases rest with
  | nil => simp [insertByKey]
  | cons q r =>
      have := keyLe_of_keyLt p.1 q.1 (h q (List.mem_cons_self q r))
      simp [insertByKey, this]

theorem fst_mem_dkeys (d : Dict) (q : Key × Value) (h : q ∈ d) : q.1 ∈ dkeys d := by
  induction d with
  | nil => simp at h
  | cons p rest ih =>
      rcases List.mem_cons.mp h with rfl | h'
      · obtain ⟨pk, pv⟩ := q
        simp [dkeys]
      · obtain ⟨pk, pv⟩ := p
        simp only [dkeys, List.mem_cons]
        exact Or.inr (ih h')

theorem pairwise_dkeys_cons (k : Key) (v : Value) (rest : Dict)
    (h : (dkeys ((k, v) :: rest)).Pairwise keyLtP) :
    (∀ q ∈ rest, keyLtP k q.1) ∧ (dkeys rest).Pairwise keyLtP := by
  simp only [dkeys, List.pairwise_cons] at h
  exact ⟨fun q hq => h.1 q.1 (fst_mem_dkeys rest q hq), h.2⟩

theorem sortByKey_eq_self (d : Dict) (h : (dkeys d).Pairwise keyLtP) :
    sortByKey d = d := by
  induction d with
  | nil => rfl
  | cons p rest ih =>
      obtain ⟨k, v⟩ := p
      obtain ⟨hhead, htail⟩ := pairwise_dkeys_cons k v rest h
      rw [sortByKey, ih htail]
      exact insertByKey_head (k, v) rest hhead

theorem mem_dkeys_enumFrom : ∀ (l : List Value) (i : Nat) (k : Key),
    k ∈ dkeys (enumFrom i l) ↔ ∃ j, j < l.length ∧ k = Key.kI (i + j) := by
  intro l
  induction l with
  | nil => intro i k; simp [enumFrom, dkeys]
  | cons v vs ih =>
      intro i k
      simp only [enumFrom, dkeys, List.mem_cons, ih (i + 1)]
      constructor
      · rintro (rfl | ⟨j, hj, rfl⟩)
        · exact ⟨0, by simp, by simp⟩
        · exact ⟨j + 1, by simp; omega, by rw [show i + (j + 1) = i + 1 + j by omega]⟩
      · rintro ⟨j, hj, rfl⟩
        cases j with
        | zero => left; simp
        | succ j' =>
            right
            exact ⟨j', by simp at hj; omega, by rw [show i + 1 + j' = i + (j' + 1) by omega]⟩

theorem pairwise_dkeys_enumFrom : ∀ (l : List Value) (i : Nat),
    (dkeys (enumFrom i l)).Pairwise keyLtP := by
  intro l
  induction l with
  | nil => intro i; simp [enumFrom, dkeys]
  | cons v vs ih =>
      intro i
      simp only [enumFrom, dkeys, List.pairwise_cons]
      refine ⟨?_, ih (i + 1)⟩
      intro b hb
      obtain ⟨j, hj, rfl⟩ := (mem_dkeys_enumFrom vs (i + 1) b).mp (by simpa [dkeys] using hb)
      simp [keyLtP, keyLt]
      omega

theorem go_keys_sublist_absent : ∀ (ldt : String) (entries cur merged m' : Dict),
    mergeDictGo "absent" ldt cur merged entries = .ok m' →
    List.Sublist (dkeys m') (dkeys merged) := by
  intro ldt entries
  induction entries with
  | nil =>
      intro cur merged m' hok
      rw [go_nil] at hok
      injection hok with hh
      rw [← hh]
  | cons p rest ih =>
      obtain ⟨k0, ev0⟩ := p
      intro cur merged m' hok
      by_cases hg : (ev0.isComposite && isCompositeO (alookup cur k0)) = true
      · cases halk : alookup merged k0 with
        | none =>
            rw [go_cons_rec_missing "absent" ldt cur merged rest k0 ev0 hg halk] at hok
            simp at hok
        | some mv =>
            cases hmd : mergeData "absent" ldt mv ev0 with
            | error er =>
                rw [go_cons_rec_err "absent" ldt cur merged rest k0 ev0 mv er hg halk hmd]
                  at hok
                simp at hok
            | ok r =>
                rw [go_cons_rec "absent" ldt cur merged rest k0 ev0 mv r hg halk hmd] at hok
                have hmem : k0 ∈ dkeys merged :=
                  (mem_dkeys_iff_isSome merged k0).mpr (by simp [halk])
                have := ih cur (aset merged k0 r) m' hok
                rwa [dkeys_aset_mem merged k0 r hmem] at this
      · have hg' : (ev0.isComposite && isCompositeO (alookup cur k0)) = false := by
          simpa using hg
        by_cases heq : pyEq (getO (alookup merged k0)) ev0 = true
        · cases halk : alookup merged k0 with
          | none =>
              rw [go_cons_absent_pop_missing ldt cur merged rest k0 ev0 hg' heq halk] at hok
              simp at hok
          | some mv =>
              rw [go_cons_absent_pop ldt cur merged rest k0 ev0 mv hg' heq halk] at hok
              exact (ih cur (apop merged k0) m' hok).trans (dkeys_apop_sublist merged k0)
        · have heq' : pyEq (getO (alookup merged k0)) ev0 = false := by simpa using heq
          rw [go_cons_absent_keep ldt cur merged rest k0 ev0 hg' heq'] at hok
          exact ih cur merged m' hok

theorem go_keys_pairwise_present : ∀ (ldt : String) (es : List Value) (i c0 : Nat)
    (cur merged m' : Dict),
    (∀ k, k ∈ dkeys merged → ∃ nn, k = Key.kI nn ∧ (nn < c0 ∨ nn < i)) →
    (∀ nn, nn < c0 → Key.kI nn ∈ dkeys merged) →
    (dkeys merged).Pairwise keyLtP →
    mergeDictGo "present" ldt cur merged (enumFrom i es) = .ok m' →
    (dkeys m').Pairwise keyLtP := by
  intro ldt es
  induction es with
  | nil =>
      intro i c0 cur merged m' h1 h2 h3 hok
      rw [enumFrom, go_nil] at hok
      injection hok with hh
      rw [← hh]
      exact h3
  | cons v vs ih =>
      intro i c0 cur merged m' h1 h2 h3 hok
      rw [enumFrom] at hok
      by_cases hg : (v.isComposite && isCompositeO (alookup cur (Key.kI i))) = true
      · cases halk : alookup merged (Key.kI i) with
        | none =>
            rw [go_cons_rec_missing "present" ldt cur merged (enumFrom (i + 1) vs)
              (Key.kI i) v hg halk] at hok
            simp at hok
        | some mv =>
            cases hmd : mergeData "present" ldt mv v with
            | error er =>
                rw [go_cons_rec_err "present" ldt cur merged (enumFrom (i + 1) vs)
                  (Key.kI i) v mv er hg halk hmd] at hok
                simp at hok
            | ok r =>
                rw [go_cons_rec "present" ldt cur merged (enumFrom (i + 1) vs)
                  (Key.kI i) v mv r hg halk hmd] at hok
                have hmem : Key.kI i ∈ dkeys merged :=
                  (mem_dkeys_iff_isSome merged (Key.kI i)).mpr (by simp [halk])
                have hkeq := dkeys_aset_mem merged (Key.kI i) r hmem
                apply ih (i + 1) c0 cur (aset merged (Key.kI i) r) m' ?_ ?_ ?_ hok
                · rw [hkeq]
                  intro k hk
                  obtain ⟨nn, rfl, hlt⟩ := h1 k hk
                  exact ⟨nn, rfl, by omega⟩
                · rw [hkeq]
                  exact h2
                · rw [hkeq]
                  exact h3
      · have hg' : (v.isComposite && isCompositeO (alookup cur (Key.kI i))) = false := by
          simpa using hg
        by_cases hnull : v.isNull = true
        · rw [go_cons_present_null ldt cur merged (enumFrom (i + 1) vs)
            (Key.kI i) v hg' hnull] at hok
          apply ih (i + 1) c0 cur merged m' ?_ h2 h3 hok
          intro k hk
          obtain ⟨nn, rfl, hlt⟩ := h1 k hk
          exact ⟨nn, rfl, by omega⟩
        · have hnull' : v.isNull = false := by simpa using hnull
          rw [go_cons_present_set ldt cur merged (enumFrom (i + 1) vs)
            (Key.kI i) v hg' hnull'] at hok
          by_cases hmem : Key.kI i ∈ dkeys merged
          · have hkeq := dkeys_aset_mem merged (Key.kI i) v hmem
            apply ih (i + 1) c0 cur (aset merged (Key.kI i) v) m' ?_ ?_ ?_ hok
            · rw [hkeq]
              intro k hk
              obtain ⟨nn, rfl, hlt⟩ := h1 k hk
              exact ⟨nn, rfl, by omega⟩
            · rw [hkeq]
              exact h2
            · rw [hkeq]
              exact h3
          · have hkeq := dkeys_aset_not_mem merged (Key.kI i) v hmem
            have hic0 : ¬ i < c0 := fun hcon => hmem (h2 i hcon)
            apply ih (i + 1) c0 cur (aset merged (Key.kI i) v) m' ?_ ?_ ?_ hok
            · rw [hkeq]
              intro k hk
              rcases List.mem_append.mp hk with hk' | hk'
              · obtain ⟨nn, rfl, hlt⟩ := h1 k hk'
                exact ⟨nn, rfl, by omega⟩
              · simp at hk'
                exact ⟨i, hk', by omega⟩
            · rw [hkeq]
              intro nn hnn
              exact List.mem_append_left _ (h2 nn hnn)
            · rw [hkeq]
              apply List.pairwise_append.mpr
              refine ⟨h3, by simp, ?_⟩
              intro a ha b hb
              simp at hb
              obtain ⟨nn, rfl, hlt⟩ := h1 a ha
              rw [hb]
              simp [keyLtP, keyLt]
              omega

/-- Spec-side reconstruction of the ByIndex strategy, following the words of
spec section 4.4: convert each sequence into a mapping keyed by position,
merge the two positional mappings with the Mapping Merger under the same
`merge_type`, and convert back by taking the values in ascending key order
(here: sorting the entries by key before taking the values). -/
def mergeSeqByIndexSpec (mt : String) (c e : List Value) : Except PyErr (List Value) :=
  (mergeDict mt "index" (enumDict c) (enumDict e)).map
    (fun md => dictValues (sortByKey md))

theorem mergeList_index_eq (mt : String) (hni : mt ≠ "identic") (c e : List Value) :
    mergeList mt "index" c e =
      (mergeDict mt "index" (enumDict c) (enumDict e)).map dictValues := by
  rw [mergeList.eq_def]
  simp only [if_neg hni, String.reduceEq, reduceIte]
  cases mergeDict mt "index" (enumDict c) (enumDict e) <;> simp [Except.map]

theorem mergeDict_index_keys_pairwise (mt : String)
    (hmt : mt = "present" ∨ mt = "absent") (c e : List Value) (md : Dict)
    (hmd : mergeDict mt "index" (enumDict c) (enumDict e) = .ok md) :
    (dkeys md).Pairwise keyLtP := by
  have hni : mt ≠ "identic" := by rcases hmt with rfl | rfl <;> decide
  rw [mergeDict.eq_def] at hmd
  dsimp only at hmd
  rw [if_neg hni] at hmd
  rcases hmt with rfl | rfl
  · apply go_keys_pairwise_present "index" e 0 c.length (enumDict c) (enumDict c) md
      ?_ ?_ ?_ hmd
    · intro k hk
      obtain ⟨j, hj, rfl⟩ := (mem_dkeys_enumFrom c 0 k).mp hk
      exact ⟨0 + j, rfl, Or.inl (by omega)⟩
    · intro nn hnn
      exact (mem_dkeys_enumFrom c 0 (Key.kI nn)).mpr ⟨nn, hnn, by rw [Nat.zero_add]⟩
    · exact pairwise_dkeys_enumFrom c 0
  · exact List.Pairwise.sublist
      (go_keys_sublist_absent "index" (enumDict e) (enumDict c) (enumDict c) md hmd)
      (pairwise_dkeys_enumFrom c 0)

/-- C3: the ByIndex sequence merge equals the three-step transform of the
spec (positional mapping, Mapping Merger with the same mode, values back in
ascending key order), and it realises the spec's two concrete examples,
including tail compaction under `absent`. -/
theorem c3_by_index_three_step (mt : String) (hmt : mt = "present" ∨ mt = "absent")
    (c e : List Value) :
    mergeList mt "index" c e = mergeSeqByIndexSpec mt c e ∧
    mergeList "present" "index" [Value.int 4, Value.int 5, Value.int 6]
      [Value.null, Value.int 7, Value.null] =
      .ok [Value.int 4, Value.int 7, Value.int 6] ∧
    mergeList "absent" "index" [Value.int 4, Value.int 5, Value.int 6]
      [Value.null, Value.int 7, Value.int 6] =
      .ok [Value.int 4, Value.int 5] := by
  have hni : mt ≠ "identic" := by rcases hmt with rfl | rfl <;> decide
  refine ⟨?_, ?_, ?_⟩
  · rw [mergeList_index_eq mt hni c e, mergeSeqByIndexSpec]
    cases hmd : mergeDict mt "index" (enumDict c) (enumDict e) with
    | error er => simp [Except.map]
    | ok md =>
        simp only [Except.map]
        rw [sortByKey_eq_self md (mergeDict_index_keys_pairwise mt hmt c e md hmd)]
  · simp [mergeList, mergeDict, mergeDictGo, mergeData, enumDict, enumFrom, dictValues,
      alookup, aset, apop, pyEq, getO, Value.isComposite, Value.isNull, isCompositeO,
      pytypeMatch]
  · simp [mergeList, mergeDict, mergeDictGo, mergeData, enumDict, enumFrom, dictValues,
      alookup, aset, apop, pyEq, getO, Value.isComposite, Value.isNull, isCompositeO,
      pytypeMatch]

/-- Witness for C3 at `merge_type = 'present'` on the empty sequences. -/
theorem c3_by_index_three_step_witness :
    (("present" : String) = "present" ∨ ("present" : String) = "absent") ∧
    (mergeList "present" "index" [] [] = mergeSeqByIndexSpec "present" [] [] ∧
     mergeList "present" "index" [Value.int 4, Value.int 5, Value.int 6]
       [Value.null, Value.int 7, Value.null] =
       .ok [Value.int 4, Value.int 7, Value.int 6] ∧
     mergeList "absent" "index" [Value.int 4, Value.int 5, Value.int 6]
       [Value.null, Value.int 7, Value.int 6] =
       .ok [Value.int 4, Value.int 5]) :=
  ⟨Or.inl rfl, c3_by_index_three_step "present" (Or.inl rfl) [] []⟩

mutual

/-- Nesting depth of a value (scalars and `None` have depth 0, a composite is
one deeper than its deepest child). -/
def vdepth : Value → Nat
  | .null => 0
  | .bool _ => 0
  | .int _ => 0
  | .str _ => 0
  | .list xs => 1 + ldepth xs
  | .dict xs => 1 + ddepth xs

/-- Depth of the deepest element of a list. -/
def ldepth : List Value → Nat
  | [] => 0
  | v :: vs => max (vdepth v) (ldepth vs)

/-- Depth of the deepest value of a dict. -/
def ddepth : Dict → Nat
  | [] => 0
  | (_, v) :: rest => max (vdepth v) (ddepth rest)

end

theorem ddepth_enumFrom : ∀ (i : Nat) (l : List Value),
    ddepth (enumFrom i l) = ldepth l := by
  intro i l
  induction l generalizing i with
  | nil => simp [enumFrom, ddepth, ldepth]
  | cons v vs ih => simp [enumFrom, ddepth, ldepth, ih]

theorem vdepth_pos_of_composite (v : Value) (h : v.isComposite = true) :
    1 ≤ vdepth v := by
  cases v <;> simp [Value.isComposite] at h <;> simp [vdepth] <;> omega

/-- The `get_new_merged_dict` key loop with the recursive call into the
dispatcher abstracted as a function argument `recData`; used by the
fuel-indexed dispatcher below to count recursion depth. -/
def goDF (recData : Value → Value → Option (Except PyErr Value)) (mt ldt : String)
    (cur : Dict) : Dict → Dict → Option (Except PyErr Dict)
  | merged, [] => some (.ok merged)
  | merged, (k, ev) :: rest =>
    if ev.isComposite && isCompositeO (alookup cur k) then
      match alookup merged k with
      | some mv =>
          match recData mv ev with
          | some (.ok r) => goDF recData mt ldt cur (aset merged k r) rest
          | some (.error er) => some (.error er)
          | none => none
      | none => some (.error .keyError)
    else
      if mt = "present" then
        if ev.isNull then goDF recData mt ldt cur merged rest
        else goDF recData mt ldt cur (aset merged k ev) rest
      else if mt = "absent" then
        if pyEq (getO (alookup merged k)) ev then
          match alookup merged k with
          | some _ => goDF recData mt ldt cur (apop merged k) rest
          | none => some (.error .keyError)
        else goDF recData mt ldt cur merged rest
      else some (.error .typeError)

/-- `get_new_merged_dict` with the dispatcher recursion abstracted. -/
def dictDF (recData : Value → Value → Option (Except PyErr Value)) (mt ldt : String)
    (current expected : Dict) : Option (Except PyErr Dict) :=
  if mt = "identic" then some (.ok expected)
  else goDF recData mt ldt current current expected

/-- `get_new_merged_list` with the dispatcher recursion abstracted. -/
def listDF (recData : Value → Value → Option (Except PyErr Value)) (mt ldt : String)
    (current expected : List Value) : Option (Except PyErr (List Value)) :=
  if mt = "identic" then some (.ok expected)
  else if ldt = "value" then
    if mt = "present" then
      some (.ok (current ++ expected.filter (fun elem => !pyMem elem current)))
    else if mt = "absent" then
      some (.ok (current.filter (fun elem => !pyMem elem expected)))
    else some (.error .typeError)
  else if ldt = "index" then
    match dictDF recData mt ldt (enumDict current) (enumDict expected) with
    | some (.ok md) => some (.ok (dictValues md))
    | some (.error er) => some (.error er)
    | none => none
  else some (.error .typeError)

/-- Fuel-indexed dispatcher: one unit of fuel is one level of dispatcher
recursion (the call issued for a nested composite pair by the key loop);
exhausted fuel yields `none`.  It makes the recursion-depth claim provable:
fuel exceeding the nesting depth of `expected` is always enough. -/
def mergeDataF : Nat → String → String → Value → Value → Option (Except PyErr Value)
  | 0, _, _, _, _ => none
  | fuel + 1, mt, ldt, current, expected =>
    if mt = "identic" then some (.ok expected)
    else if pytypeMatch current expected = false then
      if mt = "present" then some (.ok expected)
      else if mt = "absent" then some (.ok current)
      else some (.error .typeError)
    else
      match current, expected with
      | .list c, .list e =>
          match listDF (mergeDataF fuel mt ldt) mt ldt c e with
          | some (.ok r) => some (.ok (.list r))
          | some (.error er) => some (.error er)
          | none => none
      | .dict c, .dict e =>
          match dictDF (mergeDataF fuel mt ldt) mt ldt c e with
          | some (.ok r) => some (.ok (.dict r))
          | some (.error er) => some (.error er)
          | none => none
      | _, _ => some (.error .attributeError)

theorem go_cons_other (mt ldt : String) (cur merged rest : Dict) (k : Key) (ev : Value)
    (hg : (ev.isComposite && isCompositeO (alookup cur k)) = false)
    (hp : ¬ mt = "present") (ha : ¬ mt = "absent") :
    mergeDictGo mt ldt cur merged ((k, ev) :: rest) = .error .typeError := by
  simp only [mergeDictGo, hg, Bool.false_eq_true, if_false, if_neg hp, if_neg ha]

theorem goDF_adequate (recData : Value → Value → Option (Except PyErr Value))
    (mt ldt : String) (cur : Dict) (D : Nat)
    (hrec : ∀ mv ev, ev.isComposite = true → vdepth ev ≤ D →
      recData mv ev = some (mergeData mt ldt mv ev)) :
    ∀ (entries merged : Dict), ddepth entries ≤ D →
      goDF recData mt ldt cur merged entries =
        some (mergeDictGo mt ldt cur merged entries) := by
  intro entries
  induction entries with
  | nil =>
      intro merged _
      rw [go_nil]
      simp [goDF]
  | cons p rest ih =>
      obtain ⟨k, ev⟩ := p
      intro merged hdep
      simp only [ddepth] at hdep
      have hdev : vdepth ev ≤ D := le_trans (le_max_left _ _) hdep
      have hdrest : ddepth rest ≤ D := le_trans (le_max_right _ _) hdep
      by_cases hg : (ev.isComposite && isCompositeO (alookup cur k)) = true
      · have hevc : ev.isComposite = true := ((Bool.and_eq_true _ _).mp hg).1
        cases halk : alookup merged k with
        | none =>
            rw [go_cons_rec_missing mt ldt cur merged rest k ev hg halk]
            simp only [goDF, hg, if_true, halk]
        | some mv =>
            have hrd := hrec mv ev hevc hdev
            cases hmd : mergeData mt ldt mv ev with
            | ok r =>
                rw [go_cons_rec mt ldt cur merged rest k ev mv r hg halk hmd]
                rw [hmd] at hrd
                simp only [goDF, hg, if_true, halk, hrd]
                exact ih (aset merged k r) hdrest
            | error er =>
                rw [go_cons_rec_err mt ldt cur merged rest k ev mv er hg halk hmd]
                rw [hmd] at hrd
                simp only [goDF, hg, if_true, halk, hrd]
      · have hg' : (ev.isComposite && isCompositeO (alookup cur k)) = false := by
          simpa using hg
        by_cases hp : mt = "present"
        · subst hp
          by_cases hnull : ev.isNull = true
          · rw [go_cons_present_null ldt cur merged rest k ev hg' hnull]
            simp only [goDF, hg', Bool.false_eq_true, if_false, reduceIte, hnull, if_true]
            exact ih merged hdrest
          · have hnull' : ev.isNull = false := by simpa using hnull
            rw [go_cons_present_set ldt cur merged rest k ev hg' hnull']
            simp only [goDF, hg', Bool.false_eq_true, if_false, reduceIte, hnull', if_true]
            exact ih (aset merged k ev) hdrest
        · by_cases ha : mt = "absent"
          · subst ha
            by_cases heq : pyEq (getO (alookup merged k)) ev = true
            · cases halk : alookup merged k with
              | none =>
                  rw [go_cons_absent_pop_missing ldt cur merged rest k ev hg' heq halk]
                  have heq' := heq
                  rw [halk] at heq'
                  simp only [goDF, hg', Bool.false_eq_true, if_false, reduceIte,
                    String.reduceEq, halk, heq', if_true]
              | some mv =>
                  rw [go_cons_absent_pop ldt cur merged rest k ev mv hg' heq halk]
                  have heq' := heq
                  rw [halk] at heq'
                  simp only [goDF, hg', Bool.false_eq_true, if_false, reduceIte,
                    String.reduceEq, halk, heq', if_true]
                  exact ih (apop merged k) hdrest
            · have heq' : pyEq (getO (alookup merged k)) ev = false := by simpa using heq
              rw [go_cons_absent_keep ldt cur merged rest k ev hg' heq']
              simp only [goDF, hg', Bool.false_eq_true, if_false, reduceIte,
                String.reduceEq, heq']
              exact ih merged hdrest
          · rw [go_cons_other mt ldt cur merged rest k ev hg' hp ha]
            simp only [goDF, hg', Bool.false_eq_true, if_false, if_neg hp, if_neg ha]

theorem dictDF_adequate (recData : Value → Value → Option (Except PyErr Value))
    (mt ldt : String) (c e : Dict) (D : Nat)
    (hrec : ∀ mv ev, ev.isComposite = true → vdepth ev ≤ D →
      recData mv ev = some (mergeData mt ldt mv ev))
    (hdep : ddepth e ≤ D) :
    dictDF recData mt ldt c e = some (mergeDict mt ldt c e) := by
  rw [mergeDict.eq_def]
  dsimp only
  rw [dictDF]
  by_cases h1 : mt = "identic"
  · simp [h1]
  · simp only [if_neg h1]
    exact goDF_adequate recData mt ldt c D hrec e c hdep

theorem listDF_adequate (recData : Value → Value → Option (Except PyErr Value))
    (mt ldt : String) (c e : List Value) (D : Nat)
    (hrec : ∀ mv ev, ev.isComposite = true → vdepth ev ≤ D →
      recData mv ev = some (mergeData mt ldt mv ev))
    (hdep : ldepth e ≤ D) :
    listDF recData mt ldt c e = some (mergeList mt ldt c e) := by
  rw [mergeList.eq_def]
  dsimp only
  rw [listDF]
  by_cases h1 : mt = "identic"
  · simp [h1]
  · simp only [if_neg h1]
    by_cases hv : ldt = "value"
    · simp only [if_pos hv]
      by_cases hp : mt = "present"
      · simp [hp]
      · by_cases ha : mt = "absent"
        · simp [hp, ha]
        · simp [hp, ha]
    · simp only [if_neg hv]
      by_cases hi : ldt = "index"
      · simp only [if_pos hi]
        have hd := dictDF_adequate recData mt ldt (enumDict c) (enumDict e) D hrec
          (by rw [enumDict, ddepth_enumFrom]; exact hdep)
        rw [hd]
        cases mergeDict mt ldt (enumDict c) (enumDict e) <;> rfl
      · simp [hi]

theorem mergeDataF_adequate : ∀ (fuel : Nat) (mt ldt : String) (c e : Value),
    vdepth e < fuel → mergeDataF fuel mt ldt c e = some (mergeData mt ldt c e) := by
  intro fuel
  induction fuel with
  | zero =>
      intro mt ldt c e h
      exact absurd h (Nat.not_lt_zero _)
  | succ f IH =>
      intro mt ldt c e hdep
      have hrec : ∀ mv ev, ev.isComposite = true → vdepth ev ≤ f - 1 →
          mergeDataF f mt ldt mv ev = some (mergeData mt ldt mv ev) := by
        intro mv ev hc hle
        have h1le := vdepth_pos_of_composite ev hc
        exact IH mt ldt mv ev (by omega)
      cases c with
      | list cl =>
          cases e with
          | list el =>
              rw [mergeData.eq_def]
              dsimp only
              dsimp only [mergeDataF]
              by_cases h1 : mt = "identic"
              · simp [h1]
              · simp only [if_neg h1]
                by_cases h2 : pytypeMatch (Value.list cl) (Value.list el) = false
                · simp only [if_pos h2]
                  split_ifs <;> rfl
                · simp only [if_neg h2]
                  have hdl : ldepth el ≤ f - 1 := by
                    simp only [vdepth] at hdep
                    omega
                  have hl := listDF_adequate (mergeDataF f mt ldt) mt ldt cl el (f - 1)
                    hrec hdl
                  rw [hl]
                  cases mergeList mt ldt cl el <;> rfl
          | null =>
              rw [mergeData.eq_def]; dsimp only; dsimp only [mergeDataF]
              split_ifs <;> rfl
          | bool b =>
              rw [mergeData.eq_def]; dsimp only; dsimp only [mergeDataF]
              split_ifs <;> rfl
          | int i =>
              rw [mergeData.eq_def]; dsimp only; dsimp only [mergeDataF]
              split_ifs <;> rfl
          | str ss =>
              rw [mergeData.eq_def]; dsimp only; dsimp only [mergeDataF]
              split_ifs <;> rfl
          | dict ed =>
              rw [mergeData.eq_def]; dsimp only; dsimp only [mergeDataF]
              split_ifs <;> rfl
      | dict cd =>
          cases e with
          | dict ed =>
              rw [mergeData.eq_def]
              dsimp only
              dsimp only [mergeDataF]
              by_cases h1 : mt = "identic"
              · simp [h1]
              · simp only [if_neg h1]
                by_cases h2 : pytypeMatch (Value.dict cd) (Value.dict ed) = false
                · simp only [if_pos h2]
                  split_ifs <;> rfl
                · simp only [if_neg h2]
                  have hdd : ddepth ed ≤ f - 1 := by
                    simp only [vdepth] at hdep
                    omega
                  have hd := dictDF_adequate (mergeDataF f mt ldt) mt ldt cd ed (f - 1)
                    hrec hdd
                  rw [hd]
                  cases mergeDict mt ldt cd ed <;> rfl
          | null =>
              rw [mergeData.eq_def]; dsimp only; dsimp only [mergeDataF]
              split_ifs <;> rfl
          | bool b =>
              rw [mergeData.eq_def]; dsimp only; dsimp only [mergeDataF]
              split_ifs <;> rfl
          | int i =>
              rw [mergeData.eq_def]; dsimp only; dsimp only [mergeDataF]
              split_ifs <;> rfl
          | str ss =>
              rw [mergeData.eq_def]; dsimp only; dsimp only [mergeDataF]
              split_ifs <;> rfl
          | list el =>
              rw [mergeData.eq_def]; dsimp only; dsimp only [mergeDataF]
              split_ifs <;> rfl
      | null =>
          cases e
          all_goals rw [mergeData.eq_def]
          all_goals dsimp only
          all_goals dsimp only [mergeDataF]
          all_goals (split_ifs <;> rfl)
      | bool b =>
          cases e
          all_goals rw [mergeData.eq_def]
          all_goals dsimp only
          all_goals dsimp only [mergeDataF]
          all_goals (split_ifs <;> rfl)
      | int i =>
          cases e
          all_goals rw [mergeData.eq_def]
          all_goals dsimp only
          all_goals dsimp only [mergeDataF]
          all_goals (split_ifs <;> rfl)
      | str ss =>
          cases e
          all_goals rw [mergeData.eq_def]
          all_goals dsimp only
          all_goals dsimp only [mergeDataF]
          all_goals (split_ifs <;> rfl)

/-- C9: termination of the mutually recursive merge with recursion depth
bounded by the nesting depth of the inputs.  `mergeData` is a total function
(every Lean definition is), and the fuel-indexed dispatcher — which spends
one unit of fuel per level of dispatcher recursion, including the ByIndex
detour through a positional mapping — computes the very same result whenever
the fuel exceeds the nesting depth of `expected`, for every validated
configuration. -/
theorem c9_termination_depth_bound (fuel : Nat) (mt ldt : String)
    (current expected : Value) (hmt : mtValid mt) (hldt : ldtValid ldt)
    (hdep : vdepth expected < fuel) :
    mergeDataF fuel mt ldt current expected =
      some (mergeData mt ldt current expected) :=
  mergeDataF_adequate fuel mt ldt current expected hdep

/-- Witness for C9: the nested input `[[1]]` (depth 2) merged with fuel 3. -/
theorem c9_termination_depth_bound_witness :
    mtValid "present" ∧ ldtValid "index" ∧
    vdepth (Value.list [Value.list [Value.int 1]]) < 3 ∧
    mergeDataF 3 "present" "index" (Value.list [])
        (Value.list [Value.list [Value.int 1]]) =
      some (mergeData "present" "index" (Value.list [])
        (Value.list [Value.list [Value.int 1]])) :=
  ⟨Or.inr (Or.inl rfl), Or.inr rfl, by decide,
    c9_termination_depth_bound 3 "present" "index" (Value.list [])
      (Value.list [Value.list [Value.int 1]])
      (Or.inr (Or.inl rfl)) (Or.inr rfl) (by decide)⟩
